import Mathlib

/-!
Verification of the coroutine / scheduler / IO-manager core.

Shallow embedding of the sources:
* `m_cor.cpp` together with its header `m_cor.h` — the fiber (`Cor`) state
  machine: construction, `reset`, `resume`, `yield`, the id counter and the
  thread-local anchors;
* `scheduler.h` and the scheduler implementation file — task records,
  `scheduleNoLock`/`schedule`, the dispatch-loop queue scan, the callback
  branch of `run()`, and the tickle emissions of `stop()`;
* `iomanager.cpp` — per-fd event contexts, `addEvent`, `delEvent` and
  `FdContext::triggerEvent` (its header is absent from the sources, so the
  data declarations are modelled from the specification document).

Machine contexts (`ucontext_t`) are modelled by the fields the source
assigns (`uc_link`, `ss_sp`, `ss_size` and the `makecontext` entry); the
register snapshot captured by `getcontext` is opaque and irrelevant to every
claim.  `EVENT_ASSERT` aborts the process, so an operation whose assertion
fails is modelled as returning `none`.
-/

namespace Coroutine

/-- Fiber lifecycle states, from `m_cor.h`: READY, RUNNING, TERM. -/
inductive CorState where
  | READY
  | RUNNING
  | TERM
deriving DecidableEq, Repr

/-- The only entry point the source ever installs with `makecontext` is the
trampoline `Cor::MainFunc`. -/
inductive EntryPoint where
  | mainFunc
deriving DecidableEq, Repr

/-- The fields of `ucontext_t` that the source assigns: `uc_link`,
`uc_stack.ss_sp`, `uc_stack.ss_size`, and the function installed by
`makecontext`.  Addresses are abstract naturals; `none` models a null
pointer.  The register snapshot taken by `getcontext` is opaque and carries
no information any claim depends on, so it is omitted. -/
structure UContext where
  uc_link : Option Nat
  ss_sp : Option Nat
  ss_size : Nat
  entry : Option EntryPoint
deriving DecidableEq, Repr

/-- The fiber object of `m_cor.h`: id, stack size, state, saved context,
stack pointer (null for the thread-main fiber) and the entry function
object `m_cb` (abstracted to an identifier; `none` is the empty
`std::function`). -/
structure Cor where
  m_id : Nat
  m_stacksize : Nat
  m_state : CorState
  m_ctx : UContext
  m_stack : Option Nat
  m_cb : Option Nat
deriving DecidableEq, Repr

/-- Default fiber stack size: the `cor.stack_size` configuration value,
whose registered default is `128 * 1024` bytes (`m_cor.cpp`). -/
def corStackSizeDefault : Nat := 128 * 1024

/-- The context set up by the stacked constructor and by `reset`:
`uc_link = nullptr`, `ss_sp = m_stack`, `ss_size = m_stacksize`, and
`makecontext(&m_ctx, &Cor::MainFunc, 0)`. -/
def mkCtx (stack : Option Nat) (size : Nat) : UContext :=
  { uc_link := none, ss_sp := stack, ss_size := size, entry := some EntryPoint.mainFunc }

/-- The stacked constructor `Cor::Cor(cb, stacksize)`: a fresh id from the
global counter, `m_stacksize = stacksize ? stacksize : g_cor_stack_size`,
a freshly allocated stack (the allocator's result is the parameter
`allocAddr`), a context initialised to the trampoline, and the implicit
initial state READY. -/
def corNew (cb : Option Nat) (stacksize : Nat) (freshId : Nat) (allocAddr : Nat)
    (configStackSize : Nat) : Cor :=
  let ss := if stacksize ≠ 0 then stacksize else configStackSize
  { m_id := freshId
    m_stacksize := ss
    m_state := CorState.READY
    m_ctx := mkCtx (some allocAddr) ss
    m_stack := some allocAddr
    m_cb := cb }

/-- `Cor::reset(cb)`: asserts `m_stack` is non-null and `m_state == TERM`,
replaces `m_cb`, re-initialises the context on the same stack, and sets the
state to READY.  An assertion failure aborts, modelled as `none`. -/
def corReset (c : Cor) (cb : Option Nat) : Option Cor :=
  if c.m_stack.isSome ∧ c.m_state = CorState.TERM then
    some { c with
      m_cb := cb
      m_ctx := mkCtx c.m_stack c.m_stacksize
      m_state := CorState.READY }
  else
    none

/-- The two fiber-related thread-local anchors of `m_cor.cpp`: `t_cor`, the
fiber currently running on this thread (a raw pointer, here the fiber's id,
`none` for null), and `t_thread_cor`, the thread-main fiber's handle (here
its id; `yield` and `resume` dereference it, so it is non-optional in the
states these operations run in). -/
structure ThreadAnchors where
  t_cor : Option Nat
  t_thread_cor : Nat
deriving DecidableEq, Repr

/-- `Cor::resume()`: asserts `m_state != TERM && m_state != RUNNING`,
installs this fiber as current (`SetThis(this)`), sets RUNNING, and swaps
from the thread-main context into this fiber's context (the swap itself is
the opaque transfer of control; the post-state here is the state visible at
the moment of the swap). -/
def corResume (c : Cor) (a : ThreadAnchors) : Option (Cor × ThreadAnchors) :=
  if c.m_state ≠ CorState.TERM ∧ c.m_state ≠ CorState.RUNNING then
    some ({ c with m_state := CorState.RUNNING }, { a with t_cor := some c.m_id })
  else
    none

/-- `Cor::yield()`: asserts `m_state == RUNNING || m_state == TERM`,
installs the thread-main fiber as current (`SetThis(t_thread_cor.get())`),
demotes a non-TERM state to READY, and swaps back to the thread-main
context. -/
def corYield (c : Cor) (a : ThreadAnchors) : Option (Cor × ThreadAnchors) :=
  if c.m_state = CorState.RUNNING ∨ c.m_state = CorState.TERM then
    some ({ c with m_state := if c.m_state ≠ CorState.TERM then CorState.READY else c.m_state },
          { a with t_cor := some a.t_thread_cor })
  else
    none

/-- The behavioural observation of a fiber: every field `resume` and the
trampoline read — everything except the id. -/
def corObs (c : Cor) : Nat × CorState × UContext × Option Nat × Option Nat :=
  (c.m_stacksize, c.m_state, c.m_ctx, c.m_stack, c.m_cb)

/-- `Cor::GetCorId()`: the id of the fiber `t_cor` points to, or `0` when
the thread-local pointer is null. -/
def GetCorId (t_cor : Option Cor) : Nat :=
  match t_cor with
  | some c => c.m_id
  | none => 0

/-- The process-global id counter `e_cor_id` starts at `0`. -/
def e_cor_id_init : Nat := 0

/-- `m_id = e_cor_id++`: the id handed out is the counter's current value,
and the counter advances by one. -/
def assignCorId (counter : Nat) : Nat × Nat := (counter, counter + 1)

/-- The queue entry `Scheduler::ScheduleTask` of `scheduler.h`: a fiber
handle `cor`, a callback `cb` (each possibly null/empty), and the pinned
thread id (`-1` means any worker). -/
structure ScheduleTask where
  cor : Option Cor
  cb : Option Nat
  thread : Int
deriving DecidableEq, Repr

/-- `Scheduler::scheduleNoLock(cc, thread)`: records whether the queue was
empty, builds the task, and appends it only when `task.cor || task.cb`
holds; returns the emptiness flag (the header's declared `void` return is a
typo — the body returns `need_tickle` and `schedule` consumes it). -/
def scheduleNoLock (tasks : List ScheduleTask) (task : ScheduleTask) :
    Bool × List ScheduleTask :=
  (tasks.isEmpty,
   if task.cor.isSome || task.cb.isSome then tasks ++ [task] else tasks)

/-- `Scheduler::schedule(cc, thread)`: runs `scheduleNoLock` under the
scheduler mutex; returns the resulting queue and whether `tickle()` was
invoked afterwards. -/
def schedule (tasks : List ScheduleTask) (task : ScheduleTask) :
    List ScheduleTask × Bool :=
  let r := scheduleNoLock tasks task
  (r.2, r.1)

/-- The dispatch loop's assertions on a taken task (`Scheduler::run`):
`EVENT_ASSERT(it->cor || it->cb)` and, for a fiber task,
`EVENT_ASSERT(it->cor->getState() == Cor::READY)`. -/
def taskOk (t : ScheduleTask) : Bool :=
  (t.cor.isSome || t.cb.isSome) &&
    (match t.cor with
     | some c => c.m_state = CorState.READY
     | none => true)

/-- A task the scan of `Scheduler::run` may take on thread `tid`: pinned to
`-1` or to the current thread (the negation of the skip condition
`it->thread != -1 && it->thread != GetThreadId()`). -/
def eligibleB (tid : Int) (t : ScheduleTask) : Bool :=
  t.thread = -1 || t.thread = tid

/-- One queue scan of `Scheduler::run` on thread `tid`: walk the queue in
order; a task pinned to a foreign thread is skipped and `tickle_me` is set;
the first eligible task is checked by the assertions, removed
(`m_tasks.erase(it++)` leaves `it` on the element after it), and
`tickle_me |= (it != m_tasks.end())` is applied.  The result is the taken
task (if any), the remaining queue, and `tickle_me`;
an assertion failure aborts, modelled as `none`. -/
def scanQueue (tid : Int) : List ScheduleTask → Option (Option ScheduleTask × List ScheduleTask × Bool)
  | [] => some (none, [], false)
  | t :: rest =>
      if t.thread ≠ -1 ∧ t.thread ≠ tid then
        match scanQueue tid rest with
        | none => none
        | some (tk, rem, _) => some (tk, t :: rem, true)
      else if taskOk t then
        some (some t, rest, !rest.isEmpty)
      else
        none

/-- Follows the spec's words for claim C6: a tickle is needed when the scan
skipped a task pinned to a foreign thread (the foreign-pinned prefix before
the first eligible task is nonempty) or tasks remain in the queue after the
removal. -/
def specTickleNeeded (tid : Int) (tasks : List ScheduleTask) : Bool :=
  !(tasks.takeWhile (fun t => !eligibleB tid t)).isEmpty ||
  !(tasks.eraseP (eligibleB tid)).isEmpty

/-- One action of `Scheduler::stop()` after the stopping flag and the
caller-thread assertion: a `tickle()` call, the inline `m_rootCor->resume()`
drain, or the `join` of one worker thread. -/
inductive StopAction where
  | tickle
  | resumeRoot
  | joinWorker
deriving DecidableEq, Repr, BEq

/-- The action trace of `Scheduler::stop()`: one `tickle` per
`m_threadCount`; one more `tickle` gated on `m_rootFiber` — a field the
class does not declare (its member is `m_rootCor`), so the branch reads an
uninitialized value, modelled by the free input `rootFiberGarbage`; then,
if `m_rootCor` was constructed, its inline `resume`; finally the `join` of
every worker thread handle. -/
def stopTrace (threadCount : Nat) (rootCorConstructed : Bool)
    (rootFiberGarbage : Bool) (workerHandles : Nat) : List StopAction :=
  List.replicate threadCount StopAction.tickle
    ++ (if rootFiberGarbage then [StopAction.tickle] else [])
    ++ (if rootCorConstructed then [StopAction.resumeRoot] else [])
    ++ List.replicate workerHandles StopAction.joinWorker

/-- Number of `tickle()` calls in a `stop()` trace. -/
def countTickles (l : List StopAction) : Nat :=
  (l.filter (fun a => a = StopAction.tickle)).length

/-- Modelled from the spec: the tickle count a correct `stop()` would emit
— one per configured worker thread, plus one exactly when a caller dispatch
fiber (`m_rootCor`) was constructed. -/
def specStopTickleCount (threadCount : Nat) (rootCorConstructed : Bool) : Nat :=
  threadCount + (if rootCorConstructed then 1 else 0)

/-- The per-worker state of the callback branch of `Scheduler::run`:
`cb_cor`, the callback-wrapper fiber slot (a `shared_ptr`, `none` when
null), an instrumentation counter of `Cor` constructions, and the next
fresh fiber id. -/
structure CbLoopState where
  cbCor : Option Cor
  corConstructions : Nat
  nextId : Nat
deriving DecidableEq, Repr

/-- One execution of the `task.cb` branch of `Scheduler::run`: if `cb_cor`
is non-null, rebind it with `cb_cor->reset(task.cb)` (aborting on its
assertions), else construct a new `Cor` (counted by the instrumentation);
then `task.reset()`, `cb_cor->resume()` runs the callback,
`--m_activeThreadCount`, and `cb_cor.reset()` — the `shared_ptr` reset with
no argument, which nulls the slot and releases the fiber. -/
def runCbTask (s : CbLoopState) (cb : Nat) : Option CbLoopState :=
  match s.cbCor with
  | some c =>
      match corReset c (some cb) with
      | none => none
      | some _ => some { s with cbCor := none }
  | none =>
      some { cbCor := none
             corConstructions := s.corConstructions + 1
             nextId := s.nextId + 1 }

/-- Sequential execution of callback tasks by one worker. -/
def runCbTasks (s : CbLoopState) : List Nat → Option CbLoopState
  | [] => some s
  | cb :: rest =>
      match runCbTask s cb with
      | none => none
      | some s1 => runCbTasks s1 rest

/-- Modelled from the spec: `iomanager.h` is absent from the sources; the
interest kinds are READ and WRITE (the EPOLLIN / EPOLLOUT bits). -/
inductive Event where
  | READ
  | WRITE
deriving DecidableEq, Repr

/-- Modelled from the spec: the `events` member of an fd context is a
bitmask that is a subset of {READ, WRITE}; it is represented by its two
bits. -/
structure EventSet where
  rd : Bool
  wr : Bool
deriving DecidableEq, Repr

/-- The empty mask (`events == 0`, NONE). -/
def noEvents : EventSet := { rd := false, wr := false }

/-- Bit test `events & event`. -/
def EventSet.test (s : EventSet) : Event → Bool
  | Event.READ => s.rd
  | Event.WRITE => s.wr

/-- Bit set `events | event`. -/
def EventSet.add (s : EventSet) : Event → EventSet
  | Event.READ => { s with rd := true }
  | Event.WRITE => { s with wr := true }

/-- Bit clear `events & ~event`. -/
def EventSet.remove (s : EventSet) : Event → EventSet
  | Event.READ => { s with rd := false }
  | Event.WRITE => { s with wr := false }

/-- `events != 0`: whether any bit is set (used for the ADD/MOD choice and
for the MOD/DEL choice). -/
def EventSet.anySet (s : EventSet) : Bool := s.rd || s.wr

/-- The number of bits set in the mask. -/
def popCount (s : EventSet) : Nat := s.rd.toNat + s.wr.toNat

/-- Modelled from the spec: the per-event slot
`IOManager::FdContext::EventContext` holds a scheduler reference and one of
a fiber handle or a callback; an inactive slot has all three empty.
References are abstract identifiers, `none` being null/empty. -/
structure EventContext where
  scheduler : Option Nat := none
  cor : Option Nat := none
  cb : Option Nat := none
deriving DecidableEq, Repr

/-- Modelled from the spec: `IOManager::FdContext` — the descriptor, the
registered-interest mask, and the `read` and `write` event slots (the
per-context mutex guards them and has no further state). -/
structure FdContext where
  fd : Nat
  events : EventSet := noEvents
  read : EventContext := {}
  write : EventContext := {}
deriving DecidableEq, Repr

/-- `IOManager::FdContext::getEventContext(event)`: the `read` slot for
READ, the `write` slot for WRITE. -/
def FdContext.getEventContext (f : FdContext) : Event → EventContext
  | Event.READ => f.read
  | Event.WRITE => f.write

/-- Functional update of the slot selected by an event. -/
def FdContext.setEventContext (f : FdContext) : Event → EventContext → FdContext
  | Event.READ, ctx => { f with read := ctx }
  | Event.WRITE, ctx => { f with write := ctx }

/-- `IOManager::FdContext::resetEventContext`: null the scheduler, release
the fiber handle, empty the callback. -/
def resetEventContext : EventContext := {}

/-- What a triggered slot's occupant is scheduled as
(`if (ctx.cb) schedule(ctx.cb) else schedule(ctx.cor)`). -/
inductive ScheduledItem where
  | viaCb (f : Nat)
  | viaCor (c : Option Nat)
deriving DecidableEq, Repr

/-- `IOManager::FdContext::triggerEvent(event)`: asserts the bit is
registered (`EVENT_ASSERT(events & event)`, abort modelled as `none`),
clears it, schedules the slot's callback if present and otherwise its
fiber, and resets the slot.  It does not touch `m_pendingEventCount`. -/
def FdContext.triggerEvent (f : FdContext) (ev : Event) : Option (FdContext × ScheduledItem) :=
  if f.events.test ev then
    let f1 := { f with events := f.events.remove ev }
    let ctx := f1.getEventContext ev
    let item := match ctx.cb with
      | some g => ScheduledItem.viaCb g
      | none => ScheduledItem.viaCor ctx.cor
    some (f1.setEventContext ev resetEventContext, item)
  else
    none

/-- Modelled from the spec: the IOManager state the claims examine — the
atomic pending-event counter and the dense fd-context vector (`fd` is the
index; the source stores owning pointers, never null after
`contextResize`). -/
structure IOMState where
  pendingEventCount : Nat
  fdContexts : List FdContext
deriving DecidableEq, Repr

/-- `IOManager::contextResize(size)`: `m_fdContexts.resize(size)` and then
every null entry `i` is replaced by a fresh `FdContext` with `fd = i` —
entry `i` of the result is the old entry when `i` was in range, and a fresh
default context otherwise. -/
def contextResize (l : List FdContext) (size : Nat) : List FdContext :=
  (List.range size).map (fun i => (l[i]?).getD { fd := i })

/-- `IOManager::addEvent(fd, event, cb)`.  Inputs beyond the call
arguments: `epollOk`, the success of the `epoll_ctl` registration syscall;
`curSched`, the thread's `Scheduler::GetThis()`; `curCorId` and
`curCorState`, the id and state of the thread's current fiber
(`Cor::GetThis()` never returns null).  Steps, in source order: grow the
vector to `fd * 1.5` when `fd` is out of range; abort
(`EVENT_ASSERT(!(fd_ctx->events & event))`) on a duplicate registration;
return `-1` on syscall failure; otherwise increment the pending count, set
the bit, assert the slot is empty, and populate it with the scheduler and
either the callback or the current RUNNING fiber.  `none` models an
aborted assertion (and the out-of-range indexing `fd * 1.5 <= fd`, which
the source never reaches because the constructor pre-sizes to 32). -/
def addEvent (m : IOMState) (fd : Nat) (ev : Event) (cb : Option Nat)
    (epollOk : Bool) (curSched : Option Nat) (curCorId : Nat) (curCorState : CorState) :
    Option (Int × IOMState) :=
  let fdcs := if fd < m.fdContexts.length then m.fdContexts
              else contextResize m.fdContexts (fd * 3 / 2)
  match fdcs[fd]? with
  | none => none
  | some fdc =>
      if fdc.events.test ev then
        none
      else if epollOk = false then
        some (-1, { m with fdContexts := fdcs })
      else
        let fdc1 := { fdc with events := fdc.events.add ev }
        let ectx := fdc1.getEventContext ev
        if ectx.scheduler.isSome || ectx.cor.isSome || ectx.cb.isSome then
          none
        else
          match cb with
          | some g =>
              some (0, { pendingEventCount := m.pendingEventCount + 1,
                         fdContexts := fdcs.set fd
                           (fdc1.setEventContext ev
                             { scheduler := curSched, cor := none, cb := some g }) })
          | none =>
              if curCorState = CorState.RUNNING then
                some (0, { pendingEventCount := m.pendingEventCount + 1,
                           fdContexts := fdcs.set fd
                             (fdc1.setEventContext ev
                               { scheduler := curSched, cor := some curCorId, cb := none }) })
              else
                none

/-- `IOManager::delEvent(fd, event)`: returns `false` without changes when
the fd has no context, the bit is unset, or the `epoll_ctl` update fails;
otherwise decrements the pending count, clears the bit and resets the slot
(the atomic decrement is modelled with `Nat` subtraction; every use below
is in a state whose count is positive, where the two agree). -/
def delEvent (m : IOMState) (fd : Nat) (ev : Event) (epollOk : Bool) : Bool × IOMState :=
  if m.fdContexts.length ≤ fd then
    (false, m)
  else
    match m.fdContexts[fd]? with
    | none => (false, m)
    | some fdc =>
        if fdc.events.test ev = false then
          (false, m)
        else if epollOk = false then
          (false, m)
        else
          let fdc1 := ({ fdc with events := fdc.events.remove ev } : FdContext).setEventContext
            ev resetEventContext
          (true, { pendingEventCount := m.pendingEventCount - 1,
                   fdContexts := m.fdContexts.set fd fdc1 })

/-- `triggerEvent` lifted to the IOManager state: the idle loop invokes it
on the delivered fd's context under that context's mutex; the pending
counter is untouched. -/
def triggerEventM (m : IOMState) (fd : Nat) (ev : Event) :
    Option (IOMState × ScheduledItem) :=
  match m.fdContexts[fd]? with
  | none => none
  | some fdc =>
      match fdc.triggerEvent ev with
      | none => none
      | some (fdc1, item) =>
          some ({ m with fdContexts := m.fdContexts.set fd fdc1 }, item)

/-- The sum over all fd contexts of the number of registered bits. -/
def sumPending (m : IOMState) : Nat :=
  (m.fdContexts.map (fun c => popCount c.events)).sum

/-- The pending-count invariant of claim C1. -/
def pendingInv (m : IOMState) : Prop :=
  m.pendingEventCount = sumPending m

/-- A populated slot in the sense of the spec: a scheduler reference and
exactly one of fiber or callback. -/
def populatedB (s : EventContext) : Bool :=
  s.scheduler.isSome && (s.cor.isSome != s.cb.isSome)

/-- The per-context slot invariant of claim C5: each bit is set in `events`
iff its slot is populated. -/
def slotInvB (f : FdContext) : Bool :=
  (f.events.rd == populatedB f.read) && (f.events.wr == populatedB f.write)

/-- The slot invariant over the whole fd-context vector. -/
def iomInvB (m : IOMState) : Bool :=
  m.fdContexts.all slotInvB

/-- An empty slot: all three members empty (the state
`EVENT_ASSERT(!event_ctx.scheduler && !event_ctx.cor && !event_ctx.cb)`
demands). -/
def emptySlotB (s : EventContext) : Bool :=
  s.scheduler.isNone && s.cor.isNone && s.cb.isNone

/-- A view of an `addEvent` result for stating claim C4 without binders:
the returned status, the pending count, and — at the requested fd — whether
the bit is set and whether the slot is populated. -/
def addEventView (fd : Nat) (ev : Event) (o : Option (Int × IOMState)) :
    Option (Int × Nat × Option (Bool × Bool)) :=
  o.map (fun p =>
    (p.1, p.2.pendingEventCount,
     (p.2.fdContexts[fd]?).map
       (fun c => (c.events.test ev, populatedB (c.getEventContext ev)))))

/-- Updating an event's slot leaves the `events` mask untouched. -/
theorem setEventContext_events (f : FdContext) (ev : Event) (s : EventContext) :
    (f.setEventContext ev s).events = f.events := by
  cases ev <;> rfl

/-- Setting an unset bit raises the popcount by one. -/
theorem popCount_add_of_not_test (s : EventSet) (ev : Event) (h : s.test ev = false) :
    popCount (s.add ev) = popCount s + 1 := by
  rcases s with ⟨rd, wr⟩
  cases ev <;> simp_all [EventSet.test, EventSet.add, popCount]
  all_goals omega

/-- Clearing a set bit lowers the popcount by one. -/
theorem popCount_remove_of_test (s : EventSet) (ev : Event) (h : s.test ev = true) :
    popCount s = popCount (s.remove ev) + 1 := by
  rcases s with ⟨rd, wr⟩
  cases ev <;> simp_all [EventSet.test, EventSet.remove, popCount]
  all_goals omega

/-- Replacing the element at a valid index shifts a mapped sum by the
difference of the images (stated additively to stay in `Nat`). -/
theorem sum_map_set_add {α : Type} (f : α → Nat) (l : List α) :
    ∀ (i : Nat) (a c : α), l[i]? = some c →
      ((l.set i a).map f).sum + f c = (l.map f).sum + f a := by
  induction l with
  | nil => intro i a c h; simp at h
  | cons x xs ih =>
      intro i a c h
      cases i with
      | zero =>
          simp only [List.getElem?_cons_zero, Option.some.injEq] at h
          subst h
          simp [List.set]
          omega
      | succ n =>
          simp only [List.getElem?_cons_succ] at h
          have h2 := ih n a c h
          simp only [List.set, List.map_cons, List.sum_cons]
          omega

/-- The mapped-popcount sum of a range lookup with mask-free defaults
equals the sum over the original list, whenever the range covers it. -/
theorem sum_pop_rangemap :
    ∀ (l : List FdContext) (d : Nat → FdContext), (∀ i, (d i).events = noEvents) →
      ∀ (n : Nat), l.length ≤ n →
      (((List.range n).map (fun i => (l[i]?).getD (d i))).map (fun c => popCount c.events)).sum
        = (l.map (fun c => popCount c.events)).sum := by
  intro l
  induction l with
  | nil =>
      intro d hd n _
      simp only [List.getElem?_nil, Option.getD_none, List.map_map, List.map_nil,
        List.sum_nil]
      refine List.sum_eq_zero ?_
      intro x hx
      rcases List.mem_map.mp hx with ⟨i, _, hix⟩
      rw [← hix]
      simp [Function.comp, popCount, hd i, noEvents]
  | cons a l ih =>
      intro d hd n hn
      cases n with
      | zero => simp at hn
      | succ m =>
          have hstep :
              (List.range (m + 1)).map (fun i => (((a :: l))[i]?).getD (d i))
                = a :: (List.range m).map (fun i => (l[i]?).getD (d (i + 1))) := by
            rw [List.range_succ_eq_map]
            simp only [List.map_cons, List.getElem?_cons_zero, Option.getD_some,
              List.map_map]
            congr 1
            apply List.map_congr_left
            intro i _
            simp [Function.comp]
          rw [hstep]
          simp only [List.map_cons, List.sum_cons]
          rw [ih (fun i => d (i + 1)) (fun i => hd (i + 1)) m (by simpa using hn)]

/-- `contextResize` to a size at least the current length preserves the
total popcount: new contexts carry the empty mask. -/
theorem sumPending_contextResize (l : List FdContext) (n : Nat) (h : l.length ≤ n) :
    ((contextResize l n).map (fun c => popCount c.events)).sum
      = (l.map (fun c => popCount c.events)).sum := by
  unfold contextResize
  exact sum_pop_rangemap l (fun i => { fd := i }) (fun i => rfl) n h

/-- Membership in a resized vector: an old context, or a fresh default
one (empty mask, empty slots). -/
theorem mem_contextResize (l : List FdContext) (n : Nat) (x : FdContext)
    (hx : x ∈ contextResize l n) :
    x ∈ l ∨ (x.events = noEvents ∧ x.read = resetEventContext ∧ x.write = resetEventContext) := by
  unfold contextResize at hx
  rcases List.mem_map.mp hx with ⟨i, _, hxi⟩
  cases h : l[i]? with
  | some c =>
      left
      rw [h] at hxi
      simp only [Option.getD_some] at hxi
      subst hxi
      exact List.getElem?_mem h
  | none =>
      right
      rw [h] at hxi
      simp only [Option.getD_none] at hxi
      subst hxi
      exact ⟨rfl, rfl, rfl⟩

/-- A freshly defaulted fd context satisfies the slot invariant. -/
theorem slotInvB_default (f : FdContext)
    (he : f.events = noEvents) (hr : f.read = resetEventContext)
    (hw : f.write = resetEventContext) : slotInvB f = true := by
  simp [slotInvB, he, hr, hw, populatedB, noEvents, resetEventContext]

/-- Registering an event on a context that satisfies the slot invariant and
populating its slot preserves the invariant. -/
theorem slotInvB_addEvent_update (fdc : FdContext) (ev : Event) (s : EventContext)
    (hinv : slotInvB fdc = true) (hpop : populatedB s = true) :
    slotInvB (({ fdc with events := fdc.events.add ev } : FdContext).setEventContext ev s)
      = true := by
  cases ev <;>
    simp_all [slotInvB, FdContext.setEventContext, EventSet.add]

/-- Clearing an event's bit and resetting its slot preserves the slot
invariant (the shape shared by `delEvent` and `triggerEvent`). -/
theorem slotInvB_clear_update (fdc : FdContext) (ev : Event)
    (hinv : slotInvB fdc = true) :
    slotInvB (({ fdc with events := fdc.events.remove ev } : FdContext).setEventContext
      ev resetEventContext) = true := by
  cases ev <;>
    simp_all [slotInvB, FdContext.setEventContext, EventSet.remove, populatedB,
      resetEventContext]

/-- The bit just set tests positive. -/
theorem test_add_self (s : EventSet) (ev : Event) : (s.add ev).test ev = true := by
  cases ev <;> simp [EventSet.add, EventSet.test]

/-- The bit just cleared tests negative. -/
theorem test_remove_self (s : EventSet) (ev : Event) : (s.remove ev).test ev = false := by
  cases ev <;> simp [EventSet.remove, EventSet.test]

/-- Reading back the slot just written. -/
theorem getEventContext_set_self (f : FdContext) (ev : Event) (s : EventContext) :
    (f.setEventContext ev s).getEventContext ev = s := by
  cases ev <;> rfl

/-- Changing the mask does not move the slots. -/
theorem getEventContext_events_irrel (f : FdContext) (e : EventSet) (ev : Event) :
    (({ f with events := e } : FdContext).getEventContext ev) = f.getEventContext ev := by
  cases ev <;> rfl

/-- C4: when the context for `fd` exists and the bit is not yet registered,
a failing `epoll_ctl` makes `addEvent` return `-1` with the IOManager state
left equal — pending count not incremented, mask unchanged, slot still
empty — while a succeeding registration returns `0`, increments the
pending count, sets the bit and populates the slot. -/
theorem C4_addEvent_failure_vs_success
    (m : IOMState) (fd : Nat) (ev : Event) (cb : Option Nat)
    (cs : Option Nat) (cc : Nat) (ccs : CorState) (fdc : FdContext)
    (hget : m.fdContexts[fd]? = some fdc)
    (hbit : fdc.events.test ev = false)
    (hslot : emptySlotB (fdc.getEventContext ev) = true)
    (hcs : cs.isSome = true)
    (hready : cb.isSome = true ∨ ccs = CorState.RUNNING) :
    addEvent m fd ev cb false cs cc ccs = some (-1, m) ∧
    addEventView fd ev (addEvent m fd ev cb true cs cc ccs) =
      some (0, m.pendingEventCount + 1, some (true, true)) := by
  have hfd : fd < m.fdContexts.length := by
    by_contra hlt
    rw [List.getElem?_eq_none (by omega)] at hget
    exact Option.noConfusion hget
  have hslot' := hslot
  simp only [emptySlotB, Bool.and_eq_true, Option.isNone_iff_eq_none] at hslot'
  obtain ⟨⟨hs0, hc0⟩, hb0⟩ := hslot'
  have hguard :
      (({ fdc with events := fdc.events.add ev } : FdContext).getEventContext ev)
        = fdc.getEventContext ev := getEventContext_events_irrel fdc _ ev
  constructor
  · simp [addEvent, hfd, hget, hbit]
  · rcases hready with hcb | hrun
    · rcases Option.isSome_iff_exists.mp hcb with ⟨g, hg⟩
      subst hg
      simp [addEvent, addEventView, hfd, hget, hbit, hguard, hs0, hc0, hb0,
        List.getElem?_set_self hfd, getEventContext_set_self, test_add_self,
        setEventContext_events, populatedB, hcs]
    · cases cb with
      | some g =>
          simp [addEvent, addEventView, hfd, hget, hbit, hguard, hs0, hc0, hb0,
            List.getElem?_set_self hfd, getEventContext_set_self, test_add_self,
            setEventContext_events, populatedB, hcs]
      | none =>
          simp [addEvent, addEventView, hfd, hget, hbit, hguard, hs0, hc0, hb0, hrun,
            List.getElem?_set_self hfd, getEventContext_set_self, test_add_self,
            setEventContext_events, populatedB, hcs]

/-- Witness for C4 at a single empty fd context, registering READ with a
callback. -/
theorem C4_addEvent_failure_vs_success_witness :
    addEvent { pendingEventCount := 0, fdContexts := [{ fd := 0 }] } 0 Event.READ (some 9)
        false (some 0) 0 CorState.READY = some (-1, { pendingEventCount := 0, fdContexts := [{ fd := 0 }] }) ∧
    addEventView 0 Event.READ
        (addEvent { pendingEventCount := 0, fdContexts := [{ fd := 0 }] } 0 Event.READ (some 9)
          true (some 0) 0 CorState.READY) =
      some (0, 0 + 1, some (true, true)) :=
  C4_addEvent_failure_vs_success { pendingEventCount := 0, fdContexts := [{ fd := 0 }] }
    0 Event.READ (some 9) (some 0) 0 CorState.READY { fd := 0 }
    rfl rfl rfl rfl (Or.inl rfl)

/-- C5: the per-fd slot invariant — each bit of `events` is set iff its
slot is populated (a scheduler plus exactly one of fiber or callback) — is
preserved by `addEvent` (which establishes bit and slot together, the
empty-slot assertion barring every other path), by `delEvent` (which clears
both together), and by `triggerEvent` (which clears the bit and empties the
slot after scheduling its occupant). -/
theorem C5_slot_invariant_preserved
    (m : IOMState) (fd : Nat) (ev : Event) (cb : Option Nat) (ok : Bool)
    (cs : Option Nat) (cc : Nat) (ccs : CorState)
    (hinv : iomInvB m = true) (hcs : cs.isSome = true) :
    (addEvent m fd ev cb ok cs cc ccs).elim True (fun p => iomInvB p.2 = true) ∧
    iomInvB (delEvent m fd ev ok).2 = true ∧
    (triggerEventM m fd ev).elim True (fun p => iomInvB p.1 = true) := by
  have hall : ∀ x ∈ m.fdContexts, slotInvB x = true := by
    intro x hx
    exact List.all_eq_true.mp hinv x hx
  have hallf : ∀ x ∈ (if fd < m.fdContexts.length then m.fdContexts
      else contextResize m.fdContexts (fd * 3 / 2)), slotInvB x = true := by
    split
    · exact hall
    · intro x hx
      rcases mem_contextResize _ _ _ hx with hmem | ⟨he, hr, hw⟩
      · exact hall x hmem
      · exact slotInvB_default x he hr hw
  refine ⟨?_, ?_, ?_⟩
  · simp only [addEvent]
    cases hg : (if fd < m.fdContexts.length then m.fdContexts
        else contextResize m.fdContexts (fd * 3 / 2))[fd]? with
    | none => simp [hg]
    | some fdc =>
        have hfdc : slotInvB fdc = true := hallf fdc (List.getElem?_mem hg)
        simp only [hg]
        by_cases hbit : fdc.events.test ev = true
        · simp [hbit]
        · simp only [Bool.not_eq_true] at hbit
          cases ok with
          | false =>
              simp only [hbit, Bool.false_eq_true, if_false, reduceIte, Option.elim]
              simp only [iomInvB]
              exact List.all_eq_true.mpr hallf
          | true =>
              by_cases hsg :
                  ((({ fdc with events := fdc.events.add ev } : FdContext).getEventContext
                    ev).scheduler.isSome ||
                   (({ fdc with events := fdc.events.add ev } : FdContext).getEventContext
                    ev).cor.isSome ||
                   (({ fdc with events := fdc.events.add ev } : FdContext).getEventContext
                    ev).cb.isSome) = true
              · simp [hbit, hsg]
              · simp only [Bool.not_eq_true] at hsg
                cases cb with
                | some g =>
                    simp only [hbit, Bool.false_eq_true, if_false, reduceIte, hsg,
                      Option.elim, iomInvB]
                    refine List.all_eq_true.mpr ?_
                    intro x hx
                    rcases List.mem_or_eq_of_mem_set hx with hmem | hxeq
                    · exact hallf x hmem
                    · subst hxeq
                      exact slotInvB_addEvent_update fdc ev _ hfdc
                        (by simp [populatedB, hcs])
                | none =>
                    by_cases hccs : ccs = CorState.RUNNING
                    · simp only [hbit, Bool.false_eq_true, if_false, reduceIte, hsg,
                        hccs, Option.elim, iomInvB]
                      refine List.all_eq_true.mpr ?_
                      intro x hx
                      rcases List.mem_or_eq_of_mem_set hx with hmem | hxeq
                      · exact hallf x hmem
                      · subst hxeq
                        exact slotInvB_addEvent_update fdc ev _ hfdc
                          (by simp [populatedB, hcs])
                    · simp [hbit, hsg, hccs]
  · unfold delEvent
    split
    · simpa [iomInvB] using hinv
    · cases hg : m.fdContexts[fd]? with
      | none => simpa [hg, iomInvB] using hinv
      | some fdc =>
          have hfdc : slotInvB fdc = true := hall fdc (List.getElem?_mem hg)
          simp only [hg]
          by_cases hbit : fdc.events.test ev = false
          · simpa [hbit, iomInvB] using hinv
          · cases ok with
            | false => simpa [hbit, iomInvB] using hinv
            | true =>
                simp only [hbit, Bool.true_eq_false, if_false, reduceIte, iomInvB]
                refine List.all_eq_true.mpr ?_
                intro x hx
                rcases List.mem_or_eq_of_mem_set hx with hmem | hxeq
                · exact hall x hmem
                · subst hxeq
                  exact slotInvB_clear_update fdc ev hfdc
  · unfold triggerEventM
    cases hg : m.fdContexts[fd]? with
    | none => simp [hg]
    | some fdc =>
        have hfdc : slotInvB fdc = true := hall fdc (List.getElem?_mem hg)
        simp only [hg]
        unfold FdContext.triggerEvent
        by_cases hbit : fdc.events.test ev = true
        · simp only [hbit, if_true, reduceIte, Option.elim, iomInvB]
          refine List.all_eq_true.mpr ?_
          intro x hx
          rcases List.mem_or_eq_of_mem_set hx with hmem | hxeq
          · exact hall x hmem
          · subst hxeq
            exact slotInvB_clear_update fdc ev hfdc
        · simp [hbit]

/-- Witness for C5: the invariant holds after deleting the READ
registration of a populated single-context state. -/
theorem C5_slot_invariant_preserved_witness :
    iomInvB (delEvent
      { pendingEventCount := 1,
        fdContexts := [{ fd := 0, events := { rd := true, wr := false },
                         read := { scheduler := some 0, cor := none, cb := some 5 },
                         write := {} }] }
      0 Event.READ true).2 = true :=
  (C5_slot_invariant_preserved
    { pendingEventCount := 1,
      fdContexts := [{ fd := 0, events := { rd := true, wr := false },
                       read := { scheduler := some 0, cor := none, cb := some 5 },
                       write := {} }] }
    0 Event.READ none true (some 0) 0 CorState.READY (by decide) rfl).2.1

/-- A single-context state with one READ registration and a matching
pending count of 1: the pending-count invariant holds. -/
def c1State : IOMState :=
  { pendingEventCount := 1,
    fdContexts := [{ fd := 0, events := { rd := true, wr := false },
                     read := { scheduler := some 0, cor := none, cb := some 5 },
                     write := {} }] }

/-- The state `triggerEvent(READ)` leaves behind on `c1State`: the bit
cleared and the slot emptied, but the pending count still 1. -/
def c1StateAfter : IOMState :=
  { pendingEventCount := 1, fdContexts := [{ fd := 0 }] }

/-- Counterexample to C1 as stated: `FdContext::triggerEvent` clears a bit
without touching `m_pendingEventCount`, so on a state satisfying the
invariant the invariant fails after the trigger (the count stays 1, the
popcount sum drops to 0). -/
theorem C1_trigger_breaks_invariant :
    pendingInv c1State ∧
    triggerEventM c1State 0 Event.READ = some (c1StateAfter, ScheduledItem.viaCb 5) ∧
    ¬ pendingInv c1StateAfter := by
  refine ⟨?_, by decide, ?_⟩
  · unfold pendingInv sumPending
    decide
  · unfold pendingInv sumPending
    decide

/-- C1 amended: the equality "pending-event count = Σ popcount(events)" is
preserved by `addEvent` (count and bit move together) and by `delEvent`
(count and bit move together), while `triggerEvent` clears one bit without
decrementing the count, leaving the count exactly one above the sum until
its caller performs the decrement. -/
theorem C1_pending_count_amended
    (m : IOMState) (fd : Nat) (ev : Event) (cb : Option Nat) (ok : Bool)
    (cs : Option Nat) (cc : Nat) (ccs : CorState)
    (hinv : pendingInv m) :
    (addEvent m fd ev cb ok cs cc ccs).elim True (fun p => pendingInv p.2) ∧
    pendingInv (delEvent m fd ev ok).2 ∧
    (triggerEventM m fd ev).elim True
      (fun p => p.1.pendingEventCount = sumPending p.1 + 1) := by
  unfold pendingInv at hinv
  have hsums : ((if fd < m.fdContexts.length then m.fdContexts
      else contextResize m.fdContexts (fd * 3 / 2)).map (fun c => popCount c.events)).sum
      = sumPending m := by
    split
    · rfl
    · rename_i hlt
      exact sumPending_contextResize _ _ (by omega)
  refine ⟨?_, ?_, ?_⟩
  · simp only [addEvent]
    cases hg : (if fd < m.fdContexts.length then m.fdContexts
        else contextResize m.fdContexts (fd * 3 / 2))[fd]? with
    | none => simp [hg]
    | some fdc =>
        simp only [hg]
        by_cases hbit : fdc.events.test ev = true
        · simp [hbit]
        · simp only [Bool.not_eq_true] at hbit
          have hset : ∀ s : EventContext,
              ((((if fd < m.fdContexts.length then m.fdContexts
                  else contextResize m.fdContexts (fd * 3 / 2)).set fd
                    (({ fdc with events := fdc.events.add ev } : FdContext).setEventContext
                      ev s)).map (fun c => popCount c.events)).sum)
                = sumPending m + 1 := by
            intro s
            have heq := sum_map_set_add (fun c => popCount c.events)
              (if fd < m.fdContexts.length then m.fdContexts
               else contextResize m.fdContexts (fd * 3 / 2)) fd
              (({ fdc with events := fdc.events.add ev } : FdContext).setEventContext ev s)
              fdc hg
            have hpc : popCount ((({ fdc with events := fdc.events.add ev } :
                FdContext).setEventContext ev s).events) = popCount fdc.events + 1 := by
              rw [setEventContext_events]
              exact popCount_add_of_not_test fdc.events ev hbit
            simp only [] at heq
            rw [hpc] at heq
            rw [hsums] at heq
            omega
          cases ok with
          | false =>
              simp only [hbit, Bool.false_eq_true, if_false, reduceIte, Option.elim,
                pendingInv, sumPending]
              rw [hsums]
              exact hinv
          | true =>
              by_cases hsg :
                  ((({ fdc with events := fdc.events.add ev } : FdContext).getEventContext
                    ev).scheduler.isSome ||
                   (({ fdc with events := fdc.events.add ev } : FdContext).getEventContext
                    ev).cor.isSome ||
                   (({ fdc with events := fdc.events.add ev } : FdContext).getEventContext
                    ev).cb.isSome) = true
              · simp [hbit, hsg]
              · simp only [Bool.not_eq_true] at hsg
                cases cb with
                | some g =>
                    simp only [hbit, hsg, Bool.false_eq_true, Bool.true_eq_false, if_false,
                      reduceIte, Option.elim, pendingInv, sumPending]
                    rw [hset { scheduler := cs, cor := none, cb := some g }]
                    omega
                | none =>
                    by_cases hccs : ccs = CorState.RUNNING
                    · simp only [hbit, hsg, hccs, Bool.false_eq_true, Bool.true_eq_false,
                        if_false, reduceIte, Option.elim, pendingInv, sumPending]
                      rw [hset { scheduler := cs, cor := some cc, cb := none }]
                      omega
                    · simp [hbit, hsg, hccs]
  · unfold delEvent
    split
    · simpa [pendingInv] using hinv
    · cases hg : m.fdContexts[fd]? with
      | none => simpa [hg, pendingInv] using hinv
      | some fdc =>
          simp only [hg]
          by_cases hbit : fdc.events.test ev = false
          · simpa [hbit, pendingInv] using hinv
          · simp only [Bool.not_eq_false] at hbit
            cases ok with
            | false => simpa [hbit, pendingInv] using hinv
            | true =>
                simp only [hbit, Bool.true_eq_false, if_false, reduceIte, pendingInv,
                  sumPending]
                have heq := sum_map_set_add (fun c => popCount c.events) m.fdContexts fd
                  (({ fdc with events := fdc.events.remove ev } : FdContext).setEventContext
                    ev resetEventContext) fdc hg
                have hpc : popCount fdc.events
                    = popCount ((({ fdc with events := fdc.events.remove ev } :
                        FdContext).setEventContext ev resetEventContext).events) + 1 := by
                  rw [setEventContext_events]
                  exact popCount_remove_of_test fdc.events ev hbit
                simp only [] at heq
                rw [hpc] at heq
                unfold sumPending at hinv
                omega
  · unfold triggerEventM
    cases hg : m.fdContexts[fd]? with
    | none => simp [hg]
    | some fdc =>
        simp only [hg]
        unfold FdContext.triggerEvent
        by_cases hbit : fdc.events.test ev = true
        · simp only [hbit, if_true, reduceIte, Option.elim, sumPending]
          have heq := sum_map_set_add (fun c => popCount c.events) m.fdContexts fd
            (({ fdc with events := fdc.events.remove ev } : FdContext).setEventContext
              ev resetEventContext) fdc hg
          have hpc : popCount fdc.events
              = popCount ((({ fdc with events := fdc.events.remove ev } :
                  FdContext).setEventContext ev resetEventContext).events) + 1 := by
            rw [setEventContext_events]
            exact popCount_remove_of_test fdc.events ev hbit
          simp only [] at heq
          rw [hpc] at heq
          unfold sumPending at hinv
          omega
        · simp [hbit]

/-- Witness for C1's amended theorem: deleting the READ registration of
`c1State` preserves the invariant. -/
theorem C1_pending_count_amended_witness :
    pendingInv (delEvent c1State 0 Event.READ true).2 :=
  (C1_pending_count_amended c1State 0 Event.READ none true (some 0) 0 CorState.READY
    (by unfold pendingInv sumPending; decide)).2.1

/-- C2 (code bug): `stop()` gates the extra tickle on the undeclared,
uninitialized field `m_rootFiber` instead of on the caller dispatch fiber
`m_rootCor`.  With two workers, no caller dispatch fiber, and a garbage
non-null read, the code emits 3 tickles where the claim demands exactly 2;
conversely with a caller dispatch fiber and a garbage null read it emits 2
where the claim demands 3. -/
theorem C2_stop_tickles_uninitialized_field :
    countTickles (stopTrace 2 false true 2) = 3 ∧
    specStopTickleCount 2 false = 2 ∧
    countTickles (stopTrace 2 false true 2) ≠ specStopTickleCount 2 false ∧
    countTickles (stopTrace 2 true false 2) = 2 ∧
    specStopTickleCount 2 true = 3 := by
  decide

/-- C3 (code bug): because the callback branch ends with `cb_cor.reset()`,
which nulls the slot, the reuse branch `cb_cor->reset(task.cb)` is
unreachable from the loop's initial state and every callback constructs a
fresh fiber: after `N` sequential callbacks the construction counter is
exactly `N`, not at most one. -/
theorem C3_callback_fiber_not_reused (n0 acc : Nat) (cbs : List Nat) :
    runCbTasks { cbCor := none, corConstructions := acc, nextId := n0 } cbs =
      some { cbCor := none, corConstructions := acc + cbs.length, nextId := n0 + cbs.length } := by
  induction cbs generalizing n0 acc with
  | nil => simp [runCbTasks]
  | cons cb rest ih =>
      simp [runCbTasks, runCbTask, ih]
      constructor <;> omega

/-- C6: on thread `tid`, one well-formed queue scan takes the first task in
queue order pinned to `-1` or to `tid`, removes it leaving the relative
order of the remaining tasks unchanged (`eraseP`), and notes a tickle
exactly when it skipped a foreign-pinned task or tasks remain after the
removal. -/
theorem C6_scan_takes_first_eligible
    (tid : Int) (tasks : List ScheduleTask)
    (hok : ∀ t ∈ tasks, taskOk t = true)
    (hex : tasks.any (eligibleB tid) = true) :
    scanQueue tid tasks =
      some (tasks.find? (eligibleB tid),
            tasks.eraseP (eligibleB tid),
            specTickleNeeded tid tasks) := by
  induction tasks with
  | nil => simp at hex
  | cons t rest ih =>
      by_cases helig : eligibleB tid t = true
      · have hskip : ¬ (t.thread ≠ -1 ∧ t.thread ≠ tid) := by
          simp only [eligibleB, Bool.or_eq_true, decide_eq_true_eq] at helig
          tauto
        have hokt : taskOk t = true := hok t (List.mem_cons_self t rest)
        simp [scanQueue, hskip, hokt, List.find?, helig, List.eraseP_cons,
          specTickleNeeded, List.takeWhile, List.isEmpty_iff]
      · have hskip : t.thread ≠ -1 ∧ t.thread ≠ tid := by
          simp only [eligibleB, Bool.or_eq_true, decide_eq_true_eq] at helig
          tauto
        have hex' : rest.any (eligibleB tid) = true := by
          simp only [List.any_cons, Bool.or_eq_true] at hex
          tauto
        have hok' : ∀ t ∈ rest, taskOk t = true := fun x hx => hok x (List.mem_cons_of_mem t hx)
        have hrest := ih hok' hex'
        have hne : eligibleB tid t = false := by
          simp only [Bool.not_eq_true] at helig
          exact helig
        simp [scanQueue, hskip, hrest, List.find?, hne, List.eraseP_cons,
          specTickleNeeded, List.takeWhile]

/-- Witness for C6: with the current thread id 3, a queue holding a task
pinned to thread 5 followed by an unpinned task, the scan takes the second
task, keeps the first, and notes a tickle. -/
theorem C6_scan_takes_first_eligible_witness :
    scanQueue 3 [{ cor := none, cb := some 7, thread := 5 },
                 { cor := none, cb := some 8, thread := -1 }] =
      some ([{ cor := none, cb := some 7, thread := 5 },
             { cor := none, cb := some 8, thread := -1 }].find? (eligibleB 3),
            [{ cor := none, cb := some 7, thread := 5 },
             { cor := none, cb := some 8, thread := -1 }].eraseP (eligibleB 3),
            specTickleNeeded 3 [{ cor := none, cb := some 7, thread := 5 },
                                { cor := none, cb := some 8, thread := -1 }]) :=
  C6_scan_takes_first_eligible 3
    [{ cor := none, cb := some 7, thread := 5 },
     { cor := none, cb := some 8, thread := -1 }]
    (by decide) (by decide)

/-- C9: scheduling a null task — neither a fiber handle nor a callback —
leaves the task queue unchanged: nothing is enqueued, by `scheduleNoLock`
and hence by `schedule`. -/
theorem C9_null_schedule_noop
    (tasks : List ScheduleTask) (task : ScheduleTask)
    (hcor : task.cor = none) (hcb : task.cb = none) :
    (scheduleNoLock tasks task).2 = tasks ∧ (schedule tasks task).1 = tasks := by
  constructor <;> simp [scheduleNoLock, schedule, hcor, hcb]

/-- Witness for C9 on a concrete one-element queue. -/
theorem C9_null_schedule_noop_witness :
    (scheduleNoLock [{ cor := none, cb := some 1, thread := -1 }]
        { cor := none, cb := none, thread := -1 }).2 =
      [{ cor := none, cb := some 1, thread := -1 }] ∧
    (schedule [{ cor := none, cb := some 1, thread := -1 }]
        { cor := none, cb := none, thread := -1 }).1 =
      [{ cor := none, cb := some 1, thread := -1 }] :=
  C9_null_schedule_noop [{ cor := none, cb := some 1, thread := -1 }]
    { cor := none, cb := none, thread := -1 } rfl rfl

/-- C7: for every fiber whose state is RUNNING or TERM, `yield()` installs
the thread-main fiber as the thread's current fiber, and changes the
yielding fiber's state to READY exactly when it was RUNNING (a TERM fiber
remains TERM), before switching back to the thread-main context. -/
theorem C7_yield_demotes_running
    (c : Cor) (a : ThreadAnchors)
    (h : c.m_state = CorState.RUNNING ∨ c.m_state = CorState.TERM) :
    corYield c a =
      some ({ c with m_state := if c.m_state = CorState.RUNNING then CorState.READY
                                else CorState.TERM },
            { a with t_cor := some a.t_thread_cor }) := by
  rcases h with h | h <;> simp [corYield, h]

/-- Witness for C7 at a concrete RUNNING fiber. -/
theorem C7_yield_demotes_running_witness :
    corYield
      { m_id := 3, m_stacksize := 4096, m_state := CorState.RUNNING,
        m_ctx := mkCtx (some 10) 4096, m_stack := some 10, m_cb := some 1 }
      { t_cor := some 3, t_thread_cor := 0 } =
    some ({ m_id := 3, m_stacksize := 4096, m_state := CorState.READY,
            m_ctx := mkCtx (some 10) 4096, m_stack := some 10, m_cb := some 1 },
          { t_cor := some 0, t_thread_cor := 0 }) :=
  C7_yield_demotes_running
    { m_id := 3, m_stacksize := 4096, m_state := CorState.RUNNING,
      m_ctx := mkCtx (some 10) 4096, m_stack := some 10, m_cb := some 1 }
    { t_cor := some 3, t_thread_cor := 0 }
    (Or.inl rfl)

/-- C8: on a TERM fiber with a stack, `reset(f)` reuses the stack pointer
and stack size unchanged, restores state READY, re-initialises the context
to the trampoline, and makes the fiber observationally equal (everything
but the id) to a freshly constructed fiber of entry `f` on the same stack —
so the subsequent `resume` behaves exactly as a fresh fiber's would. -/
theorem C8_reset_is_fresh_construction
    (c : Cor) (f freshId sp cfg : Nat) (a : ThreadAnchors)
    (hstack : c.m_stack = some sp) (hterm : c.m_state = CorState.TERM)
    (hsz : c.m_stacksize ≠ 0) :
    (corReset c (some f)).map corObs =
      some (corObs (corNew (some f) c.m_stacksize freshId sp cfg)) ∧
    (corReset c (some f)).map Cor.m_ctx = some (mkCtx (some sp) c.m_stacksize) ∧
    ((corReset c (some f)).bind (fun cr => corResume cr a)).map (fun p => corObs p.1) =
      (corResume (corNew (some f) c.m_stacksize freshId sp cfg) a).map (fun p => corObs p.1) := by
  refine ⟨?_, ?_, ?_⟩ <;>
    simp [corReset, corNew, corObs, corResume, hstack, hterm, hsz, mkCtx]

/-- Witness for C8 at a concrete TERM fiber. -/
theorem C8_reset_is_fresh_construction_witness :
    ((corReset
        { m_id := 5, m_stacksize := 4096, m_state := CorState.TERM,
          m_ctx := mkCtx (some 10) 4096, m_stack := some 10, m_cb := none }
        (some 7)).map corObs =
      some (corObs (corNew (some 7) 4096 99 10 corStackSizeDefault))) ∧
    ((corReset
        { m_id := 5, m_stacksize := 4096, m_state := CorState.TERM,
          m_ctx := mkCtx (some 10) 4096, m_stack := some 10, m_cb := none }
        (some 7)).map Cor.m_ctx = some (mkCtx (some 10) 4096)) ∧
    (((corReset
        { m_id := 5, m_stacksize := 4096, m_state := CorState.TERM,
          m_ctx := mkCtx (some 10) 4096, m_stack := some 10, m_cb := none }
        (some 7)).bind
          (fun cr => corResume cr { t_cor := none, t_thread_cor := 0 })).map
            (fun p => corObs p.1) =
      (corResume (corNew (some 7) 4096 99 10 corStackSizeDefault)
          { t_cor := none, t_thread_cor := 0 }).map (fun p => corObs p.1)) :=
  C8_reset_is_fresh_construction
    { m_id := 5, m_stacksize := 4096, m_state := CorState.TERM,
      m_ctx := mkCtx (some 10) 4096, m_stack := some 10, m_cb := none }
    7 99 10 corStackSizeDefault { t_cor := none, t_thread_cor := 0 }
    rfl rfl (by decide)

/-- C10: `GetCorId()` returns the id of the fiber currently running on the
thread and `0` when the thread-local current-fiber pointer is null; that
sentinel coincides with the id the global counter (initially `0`) assigns
to the first fiber ever created. -/
theorem C10_getcorid_sentinel (c : Cor) :
    GetCorId (some c) = c.m_id ∧
    GetCorId none = 0 ∧
    (assignCorId e_cor_id_init).1 = GetCorId none := by
  exact ⟨rfl, rfl, rfl⟩

end Coroutine
